import Mathlib

/-!
Shallow embedding of the evaluation pipeline of `ai_test_util` (src/main.rs).

The program reads test-case documents, extracts an `<input>`/`<output>` pair
with two regexes, calls a chat oracle to generate a candidate, extracts the
first lazily matched brace- or bracket-delimited substring from the reply,
validates it with a user-supplied Lua predicate named `test`, and, when the
predicate returns true, calls the oracle a second time and compares the
case-folded reply with the literal "true".  `main` iterates over the corpus
and writes one CSV row per completed test case.

Modelling decisions:
* Strings are Lean `String`s; the regex scans are implemented character by
  character with the same leftmost, lazy semantics as the literal patterns
  `(?s)<input>(.*?)</input>`, `(?s)<output>(.*?)</output>` and
  `(\x7b(.|\n)*?\x7d|\[(.|\n)*?\])` used in the source.
* The chat oracle is a function from (call index, prompt) to either a
  transport error (the `Err` case of `client.chat().create(...)`) or a
  `ChatResponse` value mirroring the fields the source reads.  `process`
  returns the number of oracle calls it performed so that "the comparator
  oracle is never invoked" is a statement about that count.
* Rust `?` propagation out of `process` (transport errors, Lua
  `load(..).exec()` and `globals.get("test")` failures) and the panics of
  `choices.first().unwrap()` / `content.unwrap()` are modelled as the outer
  `Except.error` of `process`; `main`'s `process(&contents).await?` then
  turns any such error into a halt of the whole run (`runMain`).
* The Lua script is modelled by `ScriptResult`: either loading/executing the
  source fails, or looking up the global `test` fails, or it yields a
  predicate `String → Except String Bool` (the `test_func.call::<bool>`
  boundary, whose `Err` carries the raised error's message).
-/

namespace AiTestUtil

/-- The message inside one choice of a chat completion response; the source
reads `message.content`, an `Option<String>`. -/
structure ChatMessage where
  content : Option String
deriving DecidableEq

/-- One choice of a chat completion response. -/
structure ChatChoice where
  message : ChatMessage
deriving DecidableEq

/-- The part of the oracle's response the source reads: the choice list. -/
structure ChatResponse where
  choices : List ChatChoice
deriving DecidableEq

/-- Errors that escape `process` through `?` or a panic and, in `main`, halt
the whole run: oracle transport errors, the two `unwrap` panics on a missing
first choice or missing content, and Lua load/lookup failures. -/
inductive RunError where
  | transport (msg : String)
  | panicked (msg : String)
  | script (msg : String)
deriving DecidableEq

/-- The error-location enum of the source (`ErrorLocation` in main.rs).  The
spec's name `MatchPayload` corresponds to the source's `MatchJson`. -/
inductive ErrorLocation where
  | MatchInput
  | MatchJson
  | Parse
  | Test
deriving DecidableEq

/-- `impl fmt::Display for ErrorLocation`. -/
def ErrorLocation.display : ErrorLocation → String
  | .MatchInput => "matchinput"
  | .MatchJson => "matchjson"
  | .Parse => "parse"
  | .Test => "test"

/-- `struct TestPass` of the source. -/
structure TestPass where
  content : String
deriving DecidableEq

/-- `struct TestError` of the source. -/
structure TestError where
  content : String
  location : ErrorLocation
  err : Option String
deriving DecidableEq

/-- Outcome of the Lua stage: `lua.load(structure_test).exec()?` may fail,
`globals.get("test")?` may fail, otherwise we obtain the predicate that
`test_func.call::<bool>(jzml)` runs (its `Except.error` is a raised Lua
error's message). -/
inductive ScriptResult where
  | loadErr (msg : String)
  | lookupErr (msg : String)
  | fn (f : String → Except String Bool)

/-- The configuration `process` reads on each call: the two prompt templates,
the Lua script, and the model identifier. -/
structure Config where
  gen_prompt : String
  test_prompt : String
  structure_test : ScriptResult
  model : String

/-- `takeBefore cl l` returns the characters of `l` strictly before the first
occurrence of the sequence `cl`, or `none` when `cl` does not occur: this is
the lazy capture `(.*?)` of the source's regexes, stopped at the nearest
closing delimiter. -/
def takeBefore (cl : List Char) : List Char → Option (List Char)
  | [] => none
  | c :: rest =>
    if cl.isPrefixOf (c :: rest) then some []
    else (takeBefore cl rest).map (fun l => c :: l)

/-- Leftmost match of `op ++ (.*?) ++ cl`: scan for the first position where
`op` occurs and `cl` occurs somewhere after it; capture the interior up to
the first following `cl`.  This is the semantics of the source's
`(?s)<input>(.*?)</input>` and `(?s)<output>(.*?)</output>` regexes. -/
def findCapture (op cl : List Char) : List Char → Option (List Char)
  | [] => none
  | c :: rest =>
    if op.isPrefixOf (c :: rest) then
      match takeBefore cl ((c :: rest).drop op.length) with
      | some cap => some cap
      | none => findCapture op cl rest
    else findCapture op cl rest

/-- Leftmost, lazy match of the source's payload regex
`(\x7b(.|\n)*?\x7d|\[(.|\n)*?\])`: the first `\x7b` or `[` that has a matching
closer later in the text, extended lazily to the nearest such closer; the
returned substring includes the delimiters (`m.as_str()`). -/
def findPayload : List Char → Option (List Char)
  | [] => none
  | c :: rest =>
    if c = '\x7b' then
      match takeBefore ['\x7d'] rest with
      | some mid => some ('\x7b' :: (mid ++ ['\x7d']))
      | none => findPayload rest
    else if c = '[' then
      match takeBefore [']'] rest with
      | some mid => some ('[' :: (mid ++ [']']))
      | none => findPayload rest
    else findPayload rest

/-- String wrapper for `findCapture`. -/
def findCaptureS (op cl s : String) : Option String :=
  (findCapture op.toList cl.toList s.toList).map String.mk

/-- String wrapper for `findPayload`. -/
def findPayloadS (s : String) : Option String :=
  (findPayload s.toList).map String.mk

/-- Fuel-driven core of `replaceAll`; the fuel is the length of the text, so
the recursion is structural and reduces definitionally. -/
def replaceAllAux (pat rep : List Char) : Nat → List Char → List Char
  | 0, s => s
  | _ + 1, [] => []
  | n + 1, c :: rest =>
    if pat.isPrefixOf (c :: rest) ∧ pat ≠ [] then
      rep ++ replaceAllAux pat rep n (rest.drop (pat.length - 1))
    else
      c :: replaceAllAux pat rep n rest

/-- Rust's `str::replace`: replace every non-overlapping occurrence of `pat`
by `rep`, scanning left to right. -/
def replaceS (s pat rep : String) : String :=
  String.mk (replaceAllAux pat.toList rep.toList s.toList.length s.toList)

/-- Rust's `to_lowercase`, restricted to the per-character fold (the replies
compared here are ASCII tokens). -/
def toLowercase (s : String) : String :=
  String.mk (s.toList.map Char.toLower)

/-- Lines 72–73 / 95–96 of the source: `client.chat().create(req).await?`
followed by `res.choices.first().unwrap().message.content.clone().unwrap()`.
A transport `Err` propagates through `?`; an empty choice list or a missing
content panics; both abort `process` abnormally. -/
def getReplyContent : Except String ChatResponse → Except RunError String
  | .error m => .error (.transport m)
  | .ok resp =>
    match resp.choices with
    | [] => .error (.panicked "called Option::unwrap on a None value")
    | c :: _ =>
      match c.message.content with
      | none => .error (.panicked "called Option::unwrap on a None value")
      | some s => .ok s

/-- The oracle boundary: call index (0 = generation, 1 = comparison) and
prompt to either a transport error or a response. -/
def Oracle : Type := Nat → String → Except String ChatResponse

/-- The `process` function of the source.  The outer `Except RunError` is the
`Result<_, Box<dyn Error>>` that `?` propagates out of `process`; the inner
`Except TestError TestPass` is the classified per-case outcome.  The second
component counts how many oracle calls were issued. -/
def process (cfg : Config) (oracle : Oracle) (contents : String) :
    Except RunError (Except TestError TestPass) × Nat :=
  match findCaptureS "<input>" "</input>" contents with
  | none => (Except.ok (Except.error ⟨contents, ErrorLocation.MatchInput, none⟩), 0)
  | some input =>
    match findCaptureS "<output>" "</output>" contents with
    | none => (Except.ok (Except.error ⟨contents, ErrorLocation.MatchInput, none⟩), 0)
    | some expected_output =>
      match getReplyContent (oracle 0 (replaceS cfg.gen_prompt "__description__" input)) with
      | Except.error e => (Except.error e, 1)
      | Except.ok message =>
        match findPayloadS message with
        | none => (Except.ok (Except.error ⟨message, ErrorLocation.MatchJson, none⟩), 1)
        | some jzml =>
          match cfg.structure_test with
          | ScriptResult.loadErr m => (Except.error (RunError.script m), 1)
          | ScriptResult.lookupErr m => (Except.error (RunError.script m), 1)
          | ScriptResult.fn f =>
            match f jzml with
            | Except.error e =>
              (Except.ok (Except.error ⟨message, ErrorLocation.Parse, some e⟩), 1)
            | Except.ok false =>
              (Except.ok (Except.error ⟨message, ErrorLocation.Parse, none⟩), 1)
            | Except.ok true =>
              match getReplyContent (oracle 1 (replaceS (replaceS (replaceS
                  cfg.test_prompt "__description__" input)
                  "__baseline__" expected_output) "__input__" jzml)) with
              | Except.error e => (Except.error e, 2)
              | Except.ok test_message =>
                if toLowercase test_message = "true" then
                  (Except.ok (Except.ok ⟨message⟩), 2)
                else
                  (Except.ok (Except.error ⟨message, ErrorLocation.Test, none⟩), 2)

/-- One CSV row written by `main`, with the columns
`Name, Status, Input, Result, Error Location, Error`. -/
structure Record where
  name : String
  status : String
  input : String
  result : String
  errorLocation : String
  error : String
deriving DecidableEq

/-- The two `writer.write_record` calls in the match of `main`. -/
def recordOf (name contents : String) : Except TestError TestPass → Record
  | .ok p => ⟨name, "Passed", contents, p.content, "", ""⟩
  | .error e => ⟨name, "Failed", contents, e.content, e.location.display, e.err.getD ""⟩

/-- The corpus loop of `main`: each test case is a file name, its contents,
and the oracle behaviour it will observe.  Returns the rows written before
the loop ended and, when `process(&contents).await?` propagated an error,
that error (the run halts there; later cases are never processed). -/
def runMain (cfg : Config) : List (String × String × Oracle) → List Record × Option RunError
  | [] => ([], none)
  | (name, contents, oracle) :: rest =>
    match (process cfg oracle contents).1 with
    | Except.error e => ([], some e)
    | Except.ok r =>
      (recordOf name contents r :: (runMain cfg rest).1, (runMain cfg rest).2)

/-- A brace- or bracket-shaped payload as the source's regex produces it:
the opening delimiter, a lazily matched interior free of the closing
delimiter, and the closing delimiter. -/
def PayloadShape (p : List Char) : Prop :=
  ∃ mid, (p = '\x7b' :: (mid ++ ['\x7d']) ∧ '\x7d' ∉ mid) ∨
    (p = '[' :: (mid ++ [']']) ∧ ']' ∉ mid)

/-- A position at which the payload regex could start a match: an opening
delimiter whose closing counterpart occurs later. -/
def ViableStart (c : Char) (after : List Char) : Prop :=
  (c = '\x7b' ∧ '\x7d' ∈ after) ∨ (c = '[' ∧ ']' ∈ after)

/-- Does `pat` occur as a contiguous subsequence? -/
def containsSeq (pat : List Char) : List Char → Bool
  | [] => pat.isEmpty
  | c :: rest => pat.isPrefixOf (c :: rest) || containsSeq pat rest

/-- Modelled from the spec: the spec describes a schema strategy that
"attempts to deserialize the payload substring against a fixed record shape
(e.g., `\x7bproblem: text, resolution: text\x7d`)".  No such strategy exists
anywhere in the source (validation is always the Lua predicate), so this
definition captures conditions that are necessary for any deserializer to
accept a payload as that record shape: the payload must be object-shaped
(start with an opening brace) and must mention both field names. -/
def schemaCouldAccept (payload : String) : Bool :=
  (payload.toList.head? = some '\x7b') &&
    containsSeq "problem".toList payload.toList &&
    containsSeq "resolution".toList payload.toList

theorem takeBefore_sound {cl l mid : List Char} (h : takeBefore cl l = some mid) :
    ∃ suf, l = mid ++ cl ++ suf := by
  induction l generalizing mid with
  | nil => simp [takeBefore] at h
  | cons c rest ih =>
    rw [takeBefore] at h
    cases hpre : cl.isPrefixOf (c :: rest) with
    | true =>
      simp only [hpre, if_true] at h
      obtain rfl : ([] : List Char) = mid := by injection h
      obtain ⟨suf, hsuf⟩ := List.isPrefixOf_iff_prefix.mp hpre
      exact ⟨suf, by simp [← hsuf]⟩
    | false =>
      simp only [hpre, if_false] at h
      obtain ⟨mid', hm', hmap⟩ := Option.map_eq_some'.mp h
      obtain ⟨suf, hsuf⟩ := ih hm'
      subst hmap
      exact ⟨suf, by simp [hsuf]⟩

theorem takeBefore_char_sound {c : Char} {l mid : List Char}
    (h : takeBefore [c] l = some mid) : c ∉ mid ∧ ∃ suf, l = mid ++ c :: suf := by
  induction l generalizing mid with
  | nil => simp [takeBefore] at h
  | cons d rest ih =>
    rw [takeBefore] at h
    cases hpre : [c].isPrefixOf (d :: rest) with
    | true =>
      simp only [hpre, if_true] at h
      obtain rfl : ([] : List Char) = mid := by injection h
      have hcd : c = d := by
        simpa [List.isPrefixOf] using hpre
      exact ⟨by simp, rest, by simp [hcd]⟩
    | false =>
      simp only [hpre, if_false] at h
      obtain ⟨mid', hm', hmap⟩ := Option.map_eq_some'.mp h
      obtain ⟨hnotin, suf, hsuf⟩ := ih hm'
      subst hmap
      have hcd : ¬ c = d := by
        intro hcd
        subst hcd
        simp [List.isPrefixOf] at hpre
      refine ⟨?_, suf, by simp [hsuf]⟩
      simp only [List.mem_cons]
      rintro (rfl | hmem)
      · exact hcd rfl
      · exact hnotin hmem

theorem takeBefore_char_none {c : Char} {l : List Char}
    (h : takeBefore [c] l = none) : c ∉ l := by
  induction l with
  | nil => simp
  | cons d rest ih =>
    rw [takeBefore] at h
    cases hpre : [c].isPrefixOf (d :: rest) with
    | true => simp [hpre] at h
    | false =>
      simp only [hpre, Bool.false_eq_true, if_false, Option.map_eq_none'] at h
      have hcd : ¬ c = d := by
        intro hcd
        subst hcd
        simp [List.isPrefixOf] at hpre
      simp only [List.mem_cons]
      rintro (rfl | hmem)
      · exact hcd rfl
      · exact ih h hmem

theorem takeBefore_append_isSome (cl : List Char) (hcl : cl ≠ []) (a b : List Char) :
    (takeBefore cl (a ++ cl ++ b)).isSome := by
  induction a with
  | nil =>
    obtain ⟨c, cl', rfl⟩ : ∃ c cl', cl = c :: cl' := by
      cases cl with
      | nil => exact absurd rfl hcl
      | cons c cl' => exact ⟨c, cl', rfl⟩
    have hpre : (c :: cl').isPrefixOf (c :: cl' ++ b) = true := by
      rw [List.isPrefixOf_iff_prefix]
      exact ⟨b, by simp⟩
    simp only [List.nil_append, List.cons_append]
    rw [takeBefore]
    simp only [List.cons_append] at hpre
    simp [hpre]
  | cons d a' ih =>
    simp only [List.cons_append]
    rw [takeBefore]
    cases hpre : cl.isPrefixOf (d :: (a' ++ cl ++ b)) with
    | true => simp [hpre]
    | false =>
      obtain ⟨v, hv⟩ := Option.isSome_iff_exists.mp (by simpa using ih)
      simp [hpre, hv]

theorem findCapture_sound {op cl s cap : List Char} (h : findCapture op cl s = some cap) :
    ∃ pre suf, s = pre ++ op ++ cap ++ cl ++ suf := by
  induction s with
  | nil => simp [findCapture] at h
  | cons c rest ih =>
    rw [findCapture] at h
    cases hpre : op.isPrefixOf (c :: rest) with
    | true =>
      simp only [hpre, if_true] at h
      cases htb : takeBefore cl ((c :: rest).drop op.length) with
      | some cap' =>
        rw [htb] at h
        obtain rfl : cap' = cap := by injection h
        obtain ⟨t, ht⟩ := List.isPrefixOf_iff_prefix.mp hpre
        have hdrop : (c :: rest).drop op.length = t := by
          rw [← ht]
          exact List.drop_left _ _
        rw [hdrop] at htb
        obtain ⟨suf, hsuf⟩ := takeBefore_sound htb
        refine ⟨[], suf, ?_⟩
        rw [← ht, hsuf]
        simp [List.append_assoc]
      | none =>
        rw [htb] at h
        obtain ⟨pre, suf, hsuf⟩ := ih h
        exact ⟨c :: pre, suf, by simp [hsuf]⟩
    | false =>
      simp only [hpre, Bool.false_eq_true, if_false] at h
      obtain ⟨pre, suf, hsuf⟩ := ih h
      exact ⟨c :: pre, suf, by simp [hsuf]⟩

theorem findCapture_append_isSome (op cl : List Char) (hop : op ≠ []) (hcl : cl ≠ [])
    (pre mid suf : List Char) :
    (findCapture op cl (pre ++ op ++ mid ++ cl ++ suf)).isSome := by
  induction pre with
  | nil =>
    obtain ⟨o, op', rfl⟩ : ∃ o op', op = o :: op' := by
      cases op with
      | nil => exact absurd rfl hop
      | cons o op' => exact ⟨o, op', rfl⟩
    have hform : ([] : List Char) ++ (o :: op') ++ mid ++ cl ++ suf =
        o :: (op' ++ (mid ++ cl ++ suf)) := by simp
    rw [hform, findCapture]
    have hpre : (o :: op').isPrefixOf (o :: (op' ++ (mid ++ cl ++ suf))) = true := by
      rw [List.isPrefixOf_iff_prefix]
      exact ⟨mid ++ cl ++ suf, by simp⟩
    have hdrop : (o :: (op' ++ (mid ++ cl ++ suf))).drop (o :: op').length =
        mid ++ cl ++ suf := by
      have : o :: (op' ++ (mid ++ cl ++ suf)) = (o :: op') ++ (mid ++ cl ++ suf) := by simp
      rw [this]
      exact List.drop_left _ _
    obtain ⟨v, hv⟩ := Option.isSome_iff_exists.mp (takeBefore_append_isSome cl hcl mid suf)
    simp only [List.append_assoc] at hv hdrop
    simp [hpre, hdrop, hv]
  | cons d pre' ih =>
    have hform : (d :: pre') ++ op ++ mid ++ cl ++ suf =
        d :: (pre' ++ op ++ mid ++ cl ++ suf) := by simp
    rw [hform, findCapture]
    cases hpre : op.isPrefixOf (d :: (pre' ++ op ++ mid ++ cl ++ suf)) with
    | false =>
      obtain ⟨v, hv⟩ := Option.isSome_iff_exists.mp ih
      simp only [List.append_assoc] at hv
      simp [hpre, hv]
    | true =>
      have hle : op.length ≤ (((d :: pre') ++ op) ++ mid).length := by
        simp [List.length_append]
        omega
      have hsplit : d :: (pre' ++ op ++ mid ++ cl ++ suf) =
          (((d :: pre') ++ op) ++ mid) ++ (cl ++ suf) := by simp
      have hdrop : (d :: (pre' ++ op ++ mid ++ cl ++ suf)).drop op.length =
          ((((d :: pre') ++ op) ++ mid).drop op.length) ++ (cl ++ suf) := by
        rw [hsplit]
        exact List.drop_append_of_le_length hle
      have htb : (takeBefore cl ((d :: (pre' ++ op ++ mid ++ cl ++ suf)).drop op.length)).isSome := by
        rw [hdrop]
        have := takeBefore_append_isSome cl hcl ((((d :: pre') ++ op) ++ mid).drop op.length) suf
        simpa [List.append_assoc] using this
      obtain ⟨v, hv⟩ := Option.isSome_iff_exists.mp htb
      simp only [List.append_assoc] at hv
      simp [hpre, hv]

theorem findCapture_none_no_occurrence {op cl s : List Char} (hop : op ≠ []) (hcl : cl ≠ [])
    (h : findCapture op cl s = none) : ∀ pre mid suf, s ≠ pre ++ op ++ mid ++ cl ++ suf := by
  intro pre mid suf hs
  have hsome := findCapture_append_isSome op cl hop hcl pre mid suf
  rw [← hs, h] at hsome
  simp at hsome

theorem findPayload_sound {s p : List Char} (h : findPayload s = some p) :
    ∃ pre suf, s = pre ++ p ++ suf ∧ PayloadShape p ∧
      ∀ pre1 c pre2, pre = pre1 ++ c :: pre2 → ¬ ViableStart c (pre2 ++ p ++ suf) := by
  induction s with
  | nil => simp [findPayload] at h
  | cons c rest ih =>
    rw [findPayload] at h
    by_cases hb : c = '\x7b'
    · subst hb
      simp only [if_pos rfl] at h
      cases htb : takeBefore ['\x7d'] rest with
      | some mid =>
        rw [htb] at h
        obtain rfl : '\x7b' :: (mid ++ ['\x7d']) = p := by injection h
        obtain ⟨hnotin, suf, hsuf⟩ := takeBefore_char_sound htb
        refine ⟨[], suf, by simp [hsuf], ⟨mid, Or.inl ⟨rfl, hnotin⟩⟩, ?_⟩
        intro pre1 c' pre2 hpre
        exact absurd hpre (by simp)
      | none =>
        rw [htb] at h
        obtain ⟨pre, suf, hdecomp, hshape, hfirst⟩ := ih h
        refine ⟨'\x7b' :: pre, suf, by simp [hdecomp], hshape, ?_⟩
        intro pre1 c' pre2 hpre
        cases pre1 with
        | nil =>
          simp only [List.nil_append] at hpre
          obtain ⟨rfl, rfl⟩ : '\x7b' = c' ∧ pre = pre2 := by
            refine ⟨?_, ?_⟩ <;> injection hpre
          rintro (⟨_, hmem⟩ | ⟨hc, _⟩)
          · have hmem' : '\x7d' ∈ rest := by
              rw [hdecomp]
              exact hmem
            exact takeBefore_char_none htb hmem'
          · exact absurd hc (by decide)
        | cons d pre1' =>
          have hd : pre = pre1' ++ c' :: pre2 := by
            injection hpre with h1 h2
          exact hfirst pre1' c' pre2 hd
    · by_cases hbr : c = '['
      · subst hbr
        simp only [if_neg hb, if_pos rfl] at h
        cases htb : takeBefore [']'] rest with
        | some mid =>
          rw [htb] at h
          obtain rfl : '[' :: (mid ++ [']']) = p := by injection h
          obtain ⟨hnotin, suf, hsuf⟩ := takeBefore_char_sound htb
          refine ⟨[], suf, by simp [hsuf], ⟨mid, Or.inr ⟨rfl, hnotin⟩⟩, ?_⟩
          intro pre1 c' pre2 hpre
          exact absurd hpre (by simp)
        | none =>
          rw [htb] at h
          obtain ⟨pre, suf, hdecomp, hshape, hfirst⟩ := ih h
          refine ⟨'[' :: pre, suf, by simp [hdecomp], hshape, ?_⟩
          intro pre1 c' pre2 hpre
          cases pre1 with
          | nil =>
            simp only [List.nil_append] at hpre
            obtain ⟨rfl, rfl⟩ : '[' = c' ∧ pre = pre2 := by
              refine ⟨?_, ?_⟩ <;> injection hpre
            rintro (⟨hc, _⟩ | ⟨_, hmem⟩)
            · exact absurd hc (by decide)
            · have hmem' : ']' ∈ rest := by
                rw [hdecomp]
                exact hmem
              exact takeBefore_char_none htb hmem'
          | cons d pre1' =>
            have hd : pre = pre1' ++ c' :: pre2 := by
              injection hpre with h1 h2
            exact hfirst pre1' c' pre2 hd
      · simp only [if_neg hb, if_neg hbr] at h
        obtain ⟨pre, suf, hdecomp, hshape, hfirst⟩ := ih h
        refine ⟨c :: pre, suf, by simp [hdecomp], hshape, ?_⟩
        intro pre1 c' pre2 hpre
        cases pre1 with
        | nil =>
          simp only [List.nil_append] at hpre
          obtain ⟨rfl, rfl⟩ : c = c' ∧ pre = pre2 := by
            refine ⟨?_, ?_⟩ <;> injection hpre
          rintro (⟨hc, _⟩ | ⟨hc, _⟩)
          · exact hb hc
          · exact hbr hc
        | cons d pre1' =>
          have hd : pre = pre1' ++ c' :: pre2 := by
            injection hpre with h1 h2
          exact hfirst pre1' c' pre2 hd

theorem findPayload_isSome_brace (pre mid suf : List Char) :
    (findPayload (pre ++ ('\x7b' :: (mid ++ ('\x7d' :: suf))))).isSome := by
  induction pre with
  | nil =>
    simp only [List.nil_append]
    rw [findPayload]
    cases htb : takeBefore ['\x7d'] (mid ++ ('\x7d' :: suf)) with
    | none =>
      have := takeBefore_char_none htb
      simp at this
    | some v => simp [htb]
  | cons d pre' ih =>
    have hform : (d :: pre') ++ ('\x7b' :: (mid ++ ('\x7d' :: suf))) =
        d :: (pre' ++ ('\x7b' :: (mid ++ ('\x7d' :: suf)))) := by simp
    rw [hform, findPayload]
    by_cases hd : d = '\x7b'
    · subst hd
      simp only [if_pos rfl]
      cases htb : takeBefore ['\x7d'] (pre' ++ ('\x7b' :: (mid ++ ('\x7d' :: suf)))) with
      | none =>
        have := takeBefore_char_none htb
        simp at this
      | some v => simp [htb]
    · by_cases hbr : d = '['
      · subst hbr
        simp only [if_neg (by decide : ¬ ('[' : Char) = '\x7b'), if_pos rfl]
        cases htb : takeBefore [']'] (pre' ++ ('\x7b' :: (mid ++ ('\x7d' :: suf)))) with
        | none =>
          obtain ⟨v, hv⟩ := Option.isSome_iff_exists.mp ih
          simp [htb, hv]
        | some v => simp [htb]
      · simp only [if_neg hd, if_neg hbr]
        exact ih

theorem findPayload_isSome_bracket (pre mid suf : List Char) :
    (findPayload (pre ++ ('[' :: (mid ++ (']' :: suf))))).isSome := by
  induction pre with
  | nil =>
    simp only [List.nil_append]
    rw [findPayload]
    simp only [if_neg (by decide : ¬ ('[' : Char) = '\x7b'), if_pos rfl]
    cases htb : takeBefore [']'] (mid ++ (']' :: suf)) with
    | none =>
      have := takeBefore_char_none htb
      simp at this
    | some v => simp [htb]
  | cons d pre' ih =>
    have hform : (d :: pre') ++ ('[' :: (mid ++ (']' :: suf))) =
        d :: (pre' ++ ('[' :: (mid ++ (']' :: suf)))) := by simp
    rw [hform, findPayload]
    by_cases hd : d = '\x7b'
    · subst hd
      simp only [if_pos rfl]
      cases htb : takeBefore ['\x7d'] (pre' ++ ('[' :: (mid ++ (']' :: suf)))) with
      | none =>
        obtain ⟨v, hv⟩ := Option.isSome_iff_exists.mp ih
        simp [htb, hv]
      | some v => simp [htb]
    · by_cases hbr : d = '['
      · subst hbr
        simp only [if_neg hd, if_pos rfl]
        cases htb : takeBefore [']'] (pre' ++ ('[' :: (mid ++ (']' :: suf)))) with
        | none =>
          have := takeBefore_char_none htb
          simp at this
        | some v => simp [htb]
      · simp only [if_neg hd, if_neg hbr]
        exact ih

theorem findPayload_none_no_shape {s : List Char} (h : findPayload s = none) :
    (∀ pre mid suf, s ≠ pre ++ ('\x7b' :: (mid ++ ('\x7d' :: suf)))) ∧
    (∀ pre mid suf, s ≠ pre ++ ('[' :: (mid ++ (']' :: suf)))) := by
  constructor
  · intro pre mid suf hs
    have hsome := findPayload_isSome_brace pre mid suf
    rw [← hs, h] at hsome
    simp at hsome
  · intro pre mid suf hs
    have hsome := findPayload_isSome_bracket pre mid suf
    rw [← hs, h] at hsome
    simp at hsome

/-- C5: for every document in which either the literal, case-sensitive
`<input>`…`</input>` marker pair or the `<output>`…`</output>` marker pair is
absent, evaluation produces a `Failed` record at `MatchInput` (carrying the
whole document, with no diagnostic, hence no partial result), and no oracle
call is performed for that test case (the call count is 0). -/
theorem c5_missing_markers (cfg : Config) (oracle : Oracle) (contents : String)
    (h : (∀ pre mid suf : List Char,
            contents.toList ≠ pre ++ "<input>".toList ++ mid ++ "</input>".toList ++ suf) ∨
         (∀ pre mid suf : List Char,
            contents.toList ≠ pre ++ "<output>".toList ++ mid ++ "</output>".toList ++ suf)) :
    process cfg oracle contents =
      (Except.ok (Except.error ⟨contents, ErrorLocation.MatchInput, none⟩), 0) := by
  have habsent : ∀ op cl : String, op.toList ≠ [] → cl.toList ≠ [] →
      (∀ pre mid suf : List Char,
        contents.toList ≠ pre ++ op.toList ++ mid ++ cl.toList ++ suf) →
      findCaptureS op cl contents = none := by
    intro op cl hop hcl habs
    unfold findCaptureS
    rw [Option.map_eq_none']
    cases hfc : findCapture op.toList cl.toList contents.toList with
    | none => rfl
    | some cap =>
      obtain ⟨pre, suf, hdecomp⟩ := findCapture_sound hfc
      exact absurd hdecomp (habs pre cap suf)
  cases h with
  | inl hin =>
    have h1 : findCaptureS "<input>" "</input>" contents = none :=
      habsent _ _ (by decide) (by decide) hin
    simp [process, h1]
  | inr hout =>
    have h2 : findCaptureS "<output>" "</output>" contents = none :=
      habsent _ _ (by decide) (by decide) hout
    cases h1 : findCaptureS "<input>" "</input>" contents with
    | none => simp [process, h1]
    | some input => simp [process, h1, h2]

/-- C5 witness: a document with no markers at all is classified `MatchInput`
with zero oracle calls. -/
theorem c5_witness :
    process ⟨"g", "t", ScriptResult.fn (fun _ => Except.ok true), "m"⟩
      (fun _ _ => Except.error "network down") "just some text" =
      (Except.ok (Except.error ⟨"just some text", ErrorLocation.MatchInput, none⟩), 0) :=
  c5_missing_markers _ _ _
    (Or.inl (findCapture_none_no_occurrence (by decide) (by decide) (by decide)))

/-- C3: the comparison verdict is computed by case-folding the comparator
oracle's reply and testing exact equality with the literal token "true"; a
post-fold exact match yields `Passed`, and any other reply (padded or
punctuated ones included) yields a `Failed` record at `Test` — treated as
false rather than as an error, with no diagnostic, the record carrying the
first call's generation text. -/
theorem c3_comparator_case_fold (cfg : Config) (oracle : Oracle)
    (contents input expected message jzml reply : String)
    (f : String → Except String Bool)
    (h1 : findCaptureS "<input>" "</input>" contents = some input)
    (h2 : findCaptureS "<output>" "</output>" contents = some expected)
    (h3 : ∀ pr, getReplyContent (oracle 0 pr) = Except.ok message)
    (h4 : findPayloadS message = some jzml)
    (h5 : cfg.structure_test = ScriptResult.fn f)
    (h6 : f jzml = Except.ok true)
    (h7 : ∀ pr, getReplyContent (oracle 1 pr) = Except.ok reply) :
    process cfg oracle contents =
      (Except.ok (if toLowercase reply = "true" then Except.ok ⟨message⟩
        else Except.error ⟨message, ErrorLocation.Test, none⟩), 2) := by
  simp only [process, h1, h2, h3, h4, h5, h6, h7]
  by_cases hc : toLowercase reply = "true" <;> simp [hc]

/-- C3 witness: the reply "TRUE" passes after case folding, while the
punctuated near-miss "true." is a `Test` failure. -/
theorem c3_witness :
    process ⟨"g", "t", ScriptResult.fn (fun _ => Except.ok true), "m"⟩
      (fun i _ => if i = 0 then Except.ok ⟨[⟨⟨some "out [1]"⟩⟩]⟩
        else Except.ok ⟨[⟨⟨some "TRUE"⟩⟩]⟩)
      "<input>x</input><output>y</output>" =
      (Except.ok (Except.ok ⟨"out [1]"⟩), 2) ∧
    process ⟨"g", "t", ScriptResult.fn (fun _ => Except.ok true), "m"⟩
      (fun i _ => if i = 0 then Except.ok ⟨[⟨⟨some "out [1]"⟩⟩]⟩
        else Except.ok ⟨[⟨⟨some "true."⟩⟩]⟩)
      "<input>x</input><output>y</output>" =
      (Except.ok (Except.error ⟨"out [1]", ErrorLocation.Test, none⟩), 2) := by
  constructor
  · have h := c3_comparator_case_fold
      ⟨"g", "t", ScriptResult.fn (fun _ => Except.ok true), "m"⟩
      (fun i _ => if i = 0 then Except.ok ⟨[⟨⟨some "out [1]"⟩⟩]⟩
        else Except.ok ⟨[⟨⟨some "TRUE"⟩⟩]⟩)
      "<input>x</input><output>y</output>" "x" "y" "out [1]" "[1]" "TRUE"
      (fun _ => Except.ok true) rfl rfl (fun _ => rfl) rfl rfl rfl (fun _ => rfl)
    simpa using h
  · have h := c3_comparator_case_fold
      ⟨"g", "t", ScriptResult.fn (fun _ => Except.ok true), "m"⟩
      (fun i _ => if i = 0 then Except.ok ⟨[⟨⟨some "out [1]"⟩⟩]⟩
        else Except.ok ⟨[⟨⟨some "true."⟩⟩]⟩)
      "<input>x</input><output>y</output>" "x" "y" "out [1]" "[1]" "true."
      (fun _ => Except.ok true) rfl rfl (fun _ => rfl) rfl rfl rfl (fun _ => rfl)
    simpa using h

/-- C1 counterexample: a transport failure on the first test case's
generation call does NOT become a `Failed`-with-diagnostic record for that
case, and processing does NOT continue with the remaining corpus: the run
halts with zero records, although the second test case alone would have
produced a `Passed` record. -/
theorem c1_counterexample :
    runMain ⟨"g", "t", ScriptResult.fn (fun _ => Except.ok true), "m"⟩
      [("a.txt", "<input>x</input><output>y</output>",
          fun _ _ => Except.error "connection refused"),
       ("b.txt", "<input>x</input><output>y</output>",
          fun i _ => if i = 0 then Except.ok ⟨[⟨⟨some "out [1]"⟩⟩]⟩
            else Except.ok ⟨[⟨⟨some "true"⟩⟩]⟩)] =
      ([], some (RunError.transport "connection refused")) ∧
    runMain ⟨"g", "t", ScriptResult.fn (fun _ => Except.ok true), "m"⟩
      [("b.txt", "<input>x</input><output>y</output>",
          fun i _ => if i = 0 then Except.ok ⟨[⟨⟨some "out [1]"⟩⟩]⟩
            else Except.ok ⟨[⟨⟨some "true"⟩⟩]⟩)] =
      ([⟨"b.txt", "Passed", "<input>x</input><output>y</output>", "out [1]", "", ""⟩],
        none) := by
  exact ⟨rfl, rfl⟩

/-- C1 (amended): a Generation Client failure (transport error, or the
`unwrap` panic on an empty choice list) aborts `process` for that test case
with an unrecoverable error, and `main`'s `?` then halts the entire run: no
`Failed` record is written for the failing case and no remaining test case
is processed. -/
theorem c1_oracle_failure_halts_run (cfg : Config) (name contents : String)
    (oracle : Oracle) (rest : List (String × String × Oracle)) :
    (∀ e, (process cfg oracle contents).1 = Except.error e →
        runMain cfg ((name, contents, oracle) :: rest) = ([], some e)) ∧
    (∀ input expected msg,
        findCaptureS "<input>" "</input>" contents = some input →
        findCaptureS "<output>" "</output>" contents = some expected →
        (∀ pr, oracle 0 pr = Except.error msg) →
        process cfg oracle contents = (Except.error (RunError.transport msg), 1)) ∧
    (∀ input expected,
        findCaptureS "<input>" "</input>" contents = some input →
        findCaptureS "<output>" "</output>" contents = some expected →
        (∀ pr, oracle 0 pr = Except.ok ⟨[]⟩) →
        process cfg oracle contents =
          (Except.error (RunError.panicked "called Option::unwrap on a None value"), 1)) := by
  refine ⟨?_, ?_, ?_⟩
  · intro e he
    unfold runMain
    rw [he]
  · intro input expected msg h1 h2 h3
    simp [process, h1, h2, h3, getReplyContent]
  · intro input expected h1 h2 h3
    simp [process, h1, h2, h3, getReplyContent]

/-- C1 witness: a run whose single test case hits a transport error ends with
that error and no records. -/
theorem c1_witness :
    runMain ⟨"gp", "tp", ScriptResult.fn (fun _ => Except.ok false), "mm"⟩
      [("w.txt", "<input>a</input><output>b</output>", fun _ _ => Except.error "boom")] =
      ([], some (RunError.transport "boom")) := by
  have h := (c1_oracle_failure_halts_run
    ⟨"gp", "tp", ScriptResult.fn (fun _ => Except.ok false), "mm"⟩
    "w.txt" "<input>a</input><output>b</output>" (fun _ _ => Except.error "boom") []).1
  exact h (RunError.transport "boom") rfl

/-- C2 counterexample: a runtime error raised while loading/executing the
script source is NOT caught and NOT mapped to a `Parse` failure: it escapes
`process` as an unrecoverable error and terminates the run. -/
theorem c2_counterexample :
    process ⟨"g", "t", ScriptResult.loadErr "syntax error near eof", "m"⟩
      (fun _ _ => Except.ok ⟨[⟨⟨some "out [1]"⟩⟩]⟩)
      "<input>x</input><output>y</output>" =
      (Except.error (RunError.script "syntax error near eof"), 1) ∧
    runMain ⟨"g", "t", ScriptResult.loadErr "syntax error near eof", "m"⟩
      [("c.txt", "<input>x</input><output>y</output>",
          fun _ _ => Except.ok ⟨[⟨⟨some "out [1]"⟩⟩]⟩)] =
      ([], some (RunError.script "syntax error near eof")) := by
  exact ⟨rfl, rfl⟩

/-- C2 (amended): only runtime errors raised during the call to the script's
`test` function are caught and mapped to a `Parse` failure with the raised
error's message preserved verbatim as diagnostic; errors while
loading/executing the script source or while looking up the `test` callable
propagate out of `process` as unrecoverable errors, and (via `main`'s `?`)
terminate the whole run. -/
theorem c2_script_error_handling (cfg : Config) (oracle : Oracle)
    (contents input expected message jzml : String)
    (h1 : findCaptureS "<input>" "</input>" contents = some input)
    (h2 : findCaptureS "<output>" "</output>" contents = some expected)
    (h3 : ∀ pr, getReplyContent (oracle 0 pr) = Except.ok message)
    (h4 : findPayloadS message = some jzml) :
    (∀ (f : String → Except String Bool) (msg : String),
        cfg.structure_test = ScriptResult.fn f → f jzml = Except.error msg →
        process cfg oracle contents =
          (Except.ok (Except.error ⟨message, ErrorLocation.Parse, some msg⟩), 1)) ∧
    (∀ msg, cfg.structure_test = ScriptResult.loadErr msg →
        process cfg oracle contents = (Except.error (RunError.script msg), 1)) ∧
    (∀ msg, cfg.structure_test = ScriptResult.lookupErr msg →
        process cfg oracle contents = (Except.error (RunError.script msg), 1)) ∧
    (∀ msg name rest, cfg.structure_test = ScriptResult.loadErr msg →
        runMain cfg ((name, contents, oracle) :: rest) =
          ([], some (RunError.script msg))) := by
  refine ⟨?_, ?_, ?_, ?_⟩
  · intro f msg h5 h6
    simp [process, h1, h2, h3, h4, h5, h6]
  · intro msg h5
    simp [process, h1, h2, h3, h4, h5]
  · intro msg h5
    simp [process, h1, h2, h3, h4, h5]
  · intro msg name rest h5
    have hp : (process cfg oracle contents).1 = Except.error (RunError.script msg) := by
      simp [process, h1, h2, h3, h4, h5]
    unfold runMain
    rw [hp]

/-- C2 witness: a Lua error raised inside the `test` call is caught and
recorded as `Parse` with the raised message as diagnostic. -/
theorem c2_witness :
    process ⟨"g", "t", ScriptResult.fn (fun _ => Except.error "attempt to index a nil value"), "m"⟩
      (fun _ _ => Except.ok ⟨[⟨⟨some "out [1]"⟩⟩]⟩)
      "<input>x</input><output>y</output>" =
      (Except.ok (Except.error ⟨"out [1]", ErrorLocation.Parse,
        some "attempt to index a nil value"⟩), 1) := by
  have h := (c2_script_error_handling
    ⟨"g", "t", ScriptResult.fn (fun _ => Except.error "attempt to index a nil value"), "m"⟩
    (fun _ _ => Except.ok ⟨[⟨⟨some "out [1]"⟩⟩]⟩)
    "<input>x</input><output>y</output>" "x" "y" "out [1]" "[1]"
    rfl rfl (fun _ => rfl) rfl).1
  exact h _ "attempt to index a nil value" rfl rfl

/-- C4 counterexample: validation is not schema deserialization under any
configuration.  The payload `[1,2,3]` is array-shaped, so no deserializer
for the fixed record shape could accept it (`schemaCouldAccept` is false),
yet the pipeline validates it and proceeds to a `Passed` verdict because the
scripted predicate returned true: structural validation never attempts to
deserialize against a record shape. -/
theorem c4_counterexample :
    schemaCouldAccept "[1,2,3]" = false ∧
    process ⟨"g", "t", ScriptResult.fn (fun _ => Except.ok true), "m"⟩
      (fun i _ => if i = 0 then Except.ok ⟨[⟨⟨some "[1,2,3]"⟩⟩]⟩
        else Except.ok ⟨[⟨⟨some "true"⟩⟩]⟩)
      "<input>x</input><output>y</output>" =
      (Except.ok (Except.ok ⟨"[1,2,3]"⟩), 2) := by
  exact ⟨rfl, rfl⟩

/-- C4 (amended): the Structural Validator has exactly one strategy, the
user-supplied scripted predicate; no schema-deserialization strategy exists.
Once the pipeline reaches validation with payload `jzml`, the verdict is
determined solely by the script's result on `jzml` — `ok true` proceeds to
the comparator call, `ok false` yields `Parse` with no diagnostic, a raised
error yields `Parse` with the error text — and replacing the script by any
script agreeing on `jzml` leaves the whole outcome unchanged. -/
theorem c4_validation_is_script_only (cfg : Config) (oracle : Oracle)
    (contents input expected message jzml : String)
    (f : String → Except String Bool)
    (h1 : findCaptureS "<input>" "</input>" contents = some input)
    (h2 : findCaptureS "<output>" "</output>" contents = some expected)
    (h3 : ∀ pr, getReplyContent (oracle 0 pr) = Except.ok message)
    (h4 : findPayloadS message = some jzml)
    (h5 : cfg.structure_test = ScriptResult.fn f) :
    (f jzml = Except.ok true → (process cfg oracle contents).2 = 2) ∧
    (f jzml = Except.ok false → process cfg oracle contents =
      (Except.ok (Except.error ⟨message, ErrorLocation.Parse, none⟩), 1)) ∧
    (∀ m, f jzml = Except.error m → process cfg oracle contents =
      (Except.ok (Except.error ⟨message, ErrorLocation.Parse, some m⟩), 1)) ∧
    (∀ g : String → Except String Bool, g jzml = f jzml →
      process ⟨cfg.gen_prompt, cfg.test_prompt, ScriptResult.fn g, cfg.model⟩ oracle contents =
        process cfg oracle contents) := by
  refine ⟨?_, ?_, ?_, ?_⟩
  · intro h6
    simp only [process, h1, h2, h3, h4, h5, h6]
    split
    · rfl
    · split <;> rfl
  · intro h6
    simp [process, h1, h2, h3, h4, h5, h6]
  · intro m h6
    simp [process, h1, h2, h3, h4, h5, h6]
  · intro g hg
    simp only [process, h1, h2, h3, h4, h5, hg]

/-- C4 witness: a structurally rejecting script (`false`) yields `Parse`
with no diagnostic. -/
theorem c4_witness :
    process ⟨"g", "t", ScriptResult.fn (fun _ => Except.ok false), "m"⟩
      (fun _ _ => Except.ok ⟨[⟨⟨some "pay \x7bk\x7d"⟩⟩]⟩)
      "<input>x</input><output>y</output>" =
      (Except.ok (Except.error ⟨"pay \x7bk\x7d", ErrorLocation.Parse, none⟩), 1) := by
  have h := (c4_validation_is_script_only
    ⟨"g", "t", ScriptResult.fn (fun _ => Except.ok false), "m"⟩
    (fun _ _ => Except.ok ⟨[⟨⟨some "pay \x7bk\x7d"⟩⟩]⟩)
    "<input>x</input><output>y</output>" "x" "y" "pay \x7bk\x7d" "\x7bk\x7d"
    (fun _ => Except.ok false)
    rfl rfl (fun _ => rfl) rfl rfl).2.1
  exact h rfl

/-- C6: a generated reply containing no brace-shaped and no bracket-shaped
substring is classified `Failed` at `MatchJson` (the spec's `MatchPayload`)
after only the single generation call — the comparator oracle is never
invoked; and whenever the extractor does return a payload, that payload is
the raw first lazily-matched substring: the reply decomposes around it, it
consists of an opening delimiter, a lazily captured interior free of the
closing delimiter, and that closer, and no earlier position of the reply
could have started a match (it is not guaranteed to be balanced or
syntactically valid structured data). -/
theorem c6_payload_extraction (cfg : Config) (oracle : Oracle)
    (contents input expected message : String)
    (h1 : findCaptureS "<input>" "</input>" contents = some input)
    (h2 : findCaptureS "<output>" "</output>" contents = some expected)
    (h3 : ∀ pr, getReplyContent (oracle 0 pr) = Except.ok message) :
    ((∀ pre mid suf : List Char,
        message.toList ≠ pre ++ ('\x7b' :: (mid ++ ('\x7d' :: suf)))) →
     (∀ pre mid suf : List Char,
        message.toList ≠ pre ++ ('[' :: (mid ++ (']' :: suf)))) →
      process cfg oracle contents =
        (Except.ok (Except.error ⟨message, ErrorLocation.MatchJson, none⟩), 1)) ∧
    (∀ s p : List Char, findPayload s = some p →
      ∃ pre suf, s = pre ++ p ++ suf ∧ PayloadShape p ∧
        ∀ pre1 c pre2, pre = pre1 ++ c :: pre2 → ¬ ViableStart c (pre2 ++ p ++ suf)) := by
  constructor
  · intro hnob hnobr
    have hnone : findPayloadS message = none := by
      unfold findPayloadS
      rw [Option.map_eq_none']
      cases hfp : findPayload message.toList with
      | none => rfl
      | some p =>
        obtain ⟨pre, suf, hdecomp, ⟨mid, hshape⟩, _⟩ := findPayload_sound hfp
        rcases hshape with ⟨rfl, _⟩ | ⟨rfl, _⟩
        · exact absurd (by simpa [List.append_assoc] using hdecomp) (hnob pre mid suf)
        · exact absurd (by simpa [List.append_assoc] using hdecomp) (hnobr pre mid suf)
    simp [process, h1, h2, h3, hnone]
  · exact fun s p h => findPayload_sound h

/-- C6 witness: a plain-text reply with no braces or brackets fails at
`MatchJson` after one oracle call. -/
theorem c6_witness :
    process ⟨"g", "t", ScriptResult.fn (fun _ => Except.ok true), "m"⟩
      (fun _ _ => Except.ok ⟨[⟨⟨some "plain text reply"⟩⟩]⟩)
      "<input>x</input><output>y</output>" =
      (Except.ok (Except.error ⟨"plain text reply", ErrorLocation.MatchJson, none⟩), 1) := by
  have h := (c6_payload_extraction
    ⟨"g", "t", ScriptResult.fn (fun _ => Except.ok true), "m"⟩
    (fun _ _ => Except.ok ⟨[⟨⟨some "plain text reply"⟩⟩]⟩)
    "<input>x</input><output>y</output>" "x" "y" "plain text reply"
    rfl rfl (fun _ => rfl)).1
  exact h (findPayload_none_no_shape (by rfl)).1 (findPayload_none_no_shape (by rfl)).2

/-- C7: once the pipeline reaches structural validation, a failing payload
(script returns `false` or raises) yields `Failed` at `Parse` after only one
oracle call, so the comparator oracle is never invoked for it; the second
(comparator) call is made exactly when the payload passed validation — the
two Generation Client calls form a dependent sequence, never issued
speculatively — and in every case at most two calls are made. -/
theorem c7_dependent_sequence (cfg : Config) (oracle : Oracle)
    (contents input expected message jzml : String)
    (f : String → Except String Bool)
    (h1 : findCaptureS "<input>" "</input>" contents = some input)
    (h2 : findCaptureS "<output>" "</output>" contents = some expected)
    (h3 : ∀ pr, getReplyContent (oracle 0 pr) = Except.ok message)
    (h4 : findPayloadS message = some jzml)
    (h5 : cfg.structure_test = ScriptResult.fn f) :
    (f jzml = Except.ok false → process cfg oracle contents =
       (Except.ok (Except.error ⟨message, ErrorLocation.Parse, none⟩), 1)) ∧
    (∀ m, f jzml = Except.error m → process cfg oracle contents =
       (Except.ok (Except.error ⟨message, ErrorLocation.Parse, some m⟩), 1)) ∧
    ((process cfg oracle contents).2 = 2 ↔ f jzml = Except.ok true) ∧
    (process cfg oracle contents).2 ≤ 2 := by
  have hsnd : (process cfg oracle contents).2 =
      (match f jzml with | Except.ok true => 2 | _ => 1) := by
    rcases hf : f jzml with m | b
    · simp [process, h1, h2, h3, h4, h5, hf]
    · cases b with
      | false => simp [process, h1, h2, h3, h4, h5, hf]
      | true =>
        simp only [process, h1, h2, h3, h4, h5, hf]
        split
        · rfl
        · split <;> rfl
  refine ⟨?_, ?_, ?_, ?_⟩
  · intro h6
    simp [process, h1, h2, h3, h4, h5, h6]
  · intro m h6
    simp [process, h1, h2, h3, h4, h5, h6]
  · rw [hsnd]
    rcases hf : f jzml with m | b
    · simp
    · cases b <;> simp
  · rw [hsnd]
    rcases hf : f jzml with m | b
    · simp
    · cases b <;> simp

/-- C7 witness: with a script accepting the payload, the comparator call is
made (two calls in total). -/
theorem c7_witness :
    (process ⟨"g", "t", ScriptResult.fn (fun _ => Except.ok true), "m"⟩
      (fun i _ => if i = 0 then Except.ok ⟨[⟨⟨some "v [2]"⟩⟩]⟩
        else Except.ok ⟨[⟨⟨some "maybe"⟩⟩]⟩)
      "<input>x</input><output>y</output>").2 = 2 := by
  have h := (c7_dependent_sequence
    ⟨"g", "t", ScriptResult.fn (fun _ => Except.ok true), "m"⟩
    (fun i _ => if i = 0 then Except.ok ⟨[⟨⟨some "v [2]"⟩⟩]⟩
      else Except.ok ⟨[⟨⟨some "maybe"⟩⟩]⟩)
    "<input>x</input><output>y</output>" "x" "y" "v [2]" "[2]"
    (fun _ => Except.ok true)
    rfl rfl (fun _ => rfl) rfl rfl).2.2.1
  exact h.mpr rfl

/-- C8: a `Passed` outcome carries the full generated text as its content,
and a `Failed` outcome carries whatever text was produced up to the failing
stage: the original document text for a `MatchInput` failure, and the raw
first-call generation text for `MatchJson`, `Parse` and `Test` failures. -/
theorem c8_record_content (cfg : Config) (oracle : Oracle) (contents message : String)
    (hmsg : ∀ pr, getReplyContent (oracle 0 pr) = Except.ok message) :
    (∀ p : TestPass, (process cfg oracle contents).1 = Except.ok (Except.ok p) →
        p.content = message) ∧
    (∀ e : TestError, (process cfg oracle contents).1 = Except.ok (Except.error e) →
        e.content =
          (if e.location = ErrorLocation.MatchInput then contents else message)) := by
  constructor
  · intro p hp
    simp only [process] at hp
    repeat' split at hp
    all_goals try simp_all [hmsg]
    all_goals subst hp
    all_goals rfl
  · intro e he
    simp only [process] at he
    repeat' split at he
    all_goals try simp_all [hmsg]
    all_goals subst he
    all_goals simp_all

/-- C8 witness: a `Test` failure carries the first call's generation text,
not the document. -/
theorem c8_witness :
    (⟨"out [1]", ErrorLocation.Test, none⟩ : TestError).content =
      (if (⟨"out [1]", ErrorLocation.Test, none⟩ : TestError).location = ErrorLocation.MatchInput
        then "<input>x</input><output>y</output>" else "out [1]") := by
  have h := (c8_record_content
    ⟨"g", "t", ScriptResult.fn (fun _ => Except.ok true), "m"⟩
    (fun i _ => if i = 0 then Except.ok ⟨[⟨⟨some "out [1]"⟩⟩]⟩
      else Except.ok ⟨[⟨⟨some "false"⟩⟩]⟩)
    "<input>x</input><output>y</output>" "out [1]" (fun _ => rfl)).2
  exact h ⟨"out [1]", ErrorLocation.Test, none⟩ rfl

theorem recordOf_fields (name contents : String) (r : Except TestError TestPass) :
    (recordOf name contents r).name = name ∧
    ((recordOf name contents r).status = "Failed" ↔
      (recordOf name contents r).errorLocation ≠ "") := by
  cases r with
  | ok p =>
    refine ⟨rfl, ?_⟩
    simp [recordOf]
  | error e =>
    refine ⟨rfl, ?_⟩
    cases he : e.location <;> simp [recordOf, he, ErrorLocation.display]

/-- C9 counterexample: with two test cases of which the second hits a
transport failure, the run produces a single record and then halts — not one
record per test case. -/
theorem c9_counterexample :
    runMain ⟨"g", "t", ScriptResult.fn (fun _ => Except.ok true), "m"⟩
      [("a.txt", "<input>x</input><output>y</output>",
          fun i _ => if i = 0 then Except.ok ⟨[⟨⟨some "out [1]"⟩⟩]⟩
            else Except.ok ⟨[⟨⟨some "true"⟩⟩]⟩),
       ("b.txt", "<input>x</input><output>y</output>",
          fun _ _ => Except.error "connection reset")] =
      ([⟨"a.txt", "Passed", "<input>x</input><output>y</output>", "out [1]", "", ""⟩],
        some (RunError.transport "connection reset")) ∧
    (runMain ⟨"g", "t", ScriptResult.fn (fun _ => Except.ok true), "m"⟩
      [("a.txt", "<input>x</input><output>y</output>",
          fun i _ => if i = 0 then Except.ok ⟨[⟨⟨some "out [1]"⟩⟩]⟩
            else Except.ok ⟨[⟨⟨some "true"⟩⟩]⟩),
       ("b.txt", "<input>x</input><output>y</output>",
          fun _ _ => Except.error "connection reset")]).1.length ≠ 2 := by
  exact ⟨rfl, by decide⟩

/-- C9 (amended): provided every test case's evaluation completes without an
infrastructural error (no oracle failure, no script load/lookup failure —
equivalently, the run does not halt early), processing N test cases yields
exactly one record per test case, in corpus order, each carrying its source
file name, and in every record the errorLocation column is non-empty exactly
when the status is Failed. -/
theorem c9_records_when_run_completes (cfg : Config)
    (cs : List (String × String × Oracle))
    (h : (runMain cfg cs).2 = none) :
    (runMain cfg cs).1.length = cs.length ∧
    (runMain cfg cs).1.map Record.name = cs.map (fun c => c.1) ∧
    ∀ r ∈ (runMain cfg cs).1, (r.status = "Failed" ↔ r.errorLocation ≠ "") := by
  induction cs with
  | nil => simp [runMain]
  | cons c rest ih =>
    obtain ⟨name, contents, oracle⟩ := c
    rw [runMain] at h ⊢
    cases hp : (process cfg oracle contents).1 with
    | error e =>
      rw [hp] at h
      simp at h
    | ok r =>
      rw [hp] at h
      simp only at h ⊢
      obtain ⟨hlen, hnames, hinv⟩ := ih h
      refine ⟨by simp [hlen], ?_, ?_⟩
      · simp only [List.map_cons, hnames, (recordOf_fields name contents r).1]
      · intro rec hrec
        rcases List.mem_cons.mp hrec with rfl | hmem
        · exact (recordOf_fields name contents r).2
        · exact hinv rec hmem

/-- C9 witness: a run of two completing test cases (one passing, one failing
at `MatchInput`) yields two records with the two file names. -/
theorem c9_witness :
    (runMain ⟨"g", "t", ScriptResult.fn (fun _ => Except.ok true), "m"⟩
      [("p.txt", "<input>x</input><output>y</output>",
          fun i _ => if i = 0 then Except.ok ⟨[⟨⟨some "out [1]"⟩⟩]⟩
            else Except.ok ⟨[⟨⟨some "true"⟩⟩]⟩),
       ("f.txt", "no markers", fun _ _ => Except.error "never called")]).1.length =
      ([("p.txt", "<input>x</input><output>y</output>",
          fun i _ => if i = 0 then Except.ok ⟨[⟨⟨some "out [1]"⟩⟩]⟩
            else Except.ok ⟨[⟨⟨some "true"⟩⟩]⟩),
       ("f.txt", "no markers", fun _ _ => Except.error "never called")] :
        List (String × String × Oracle)).length ∧
    (runMain ⟨"g", "t", ScriptResult.fn (fun _ => Except.ok true), "m"⟩
      [("p.txt", "<input>x</input><output>y</output>",
          fun i _ => if i = 0 then Except.ok ⟨[⟨⟨some "out [1]"⟩⟩]⟩
            else Except.ok ⟨[⟨⟨some "true"⟩⟩]⟩),
       ("f.txt", "no markers", fun _ _ => Except.error "never called")]).1.map
        Record.name = ["p.txt", "f.txt"] := by
  have h := c9_records_when_run_completes
    ⟨"g", "t", ScriptResult.fn (fun _ => Except.ok true), "m"⟩
    [("p.txt", "<input>x</input><output>y</output>",
        fun i _ => if i = 0 then Except.ok ⟨[⟨⟨some "out [1]"⟩⟩]⟩
          else Except.ok ⟨[⟨⟨some "true"⟩⟩]⟩),
     ("f.txt", "no markers", fun _ _ => Except.error "never called")] rfl
  exact ⟨h.1, h.2.1⟩

/-- C10: a record with a non-empty diagnostic can arise only from a `Parse`
failure whose diagnostic is the error raised by the script's `test` call;
failures at `MatchInput`, `MatchJson` and `Test` (and `Parse` failures from
a plain `false`) carry no diagnostic, and a `Passed` row carries neither an
error location nor a diagnostic. -/
theorem c10_diagnostic_only_from_script (cfg : Config) (oracle : Oracle) (contents : String) :
    (∀ e : TestError, (process cfg oracle contents).1 = Except.ok (Except.error e) →
        e.err ≠ none →
        e.location = ErrorLocation.Parse ∧
        ∃ (f : String → Except String Bool) (p m : String),
          cfg.structure_test = ScriptResult.fn f ∧ e.err = some m ∧ f p = Except.error m) ∧
    (∀ e : TestError, (process cfg oracle contents).1 = Except.ok (Except.error e) →
        e.location ≠ ErrorLocation.Parse → e.err = none) ∧
    (∀ (name : String) (p : TestPass),
        (recordOf name contents (Except.ok p)).errorLocation = "" ∧
        (recordOf name contents (Except.ok p)).error = "") := by
  refine ⟨?_, ?_, fun name p => ⟨rfl, rfl⟩⟩
  · intro e he hne
    simp only [process] at he
    repeat' split at he
    all_goals try simp_all
    all_goals subst he
    all_goals try simp_all
    all_goals exact ⟨_, by assumption⟩
  · intro e he hloc
    simp only [process] at he
    repeat' split at he
    all_goals try simp_all
    all_goals subst he
    all_goals simp_all

/-- C10 witness: a script-raised error produces the only kind of record with
a diagnostic — `Parse` with the raised message. -/
theorem c10_witness :
    (⟨"out [1]", ErrorLocation.Parse, some "oops"⟩ : TestError).location =
      ErrorLocation.Parse ∧
    ∃ (f : String → Except String Bool) (p m : String),
      (⟨"g", "t", ScriptResult.fn (fun _ => Except.error "oops"), "m"⟩ :
        Config).structure_test = ScriptResult.fn f ∧
      (⟨"out [1]", ErrorLocation.Parse, some "oops"⟩ : TestError).err = some m ∧
      f p = Except.error m := by
  have h := (c10_diagnostic_only_from_script
    ⟨"g", "t", ScriptResult.fn (fun _ => Except.error "oops"), "m"⟩
    (fun _ _ => Except.ok ⟨[⟨⟨some "out [1]"⟩⟩]⟩)
    "<input>x</input><output>y</output>").1
    ⟨"out [1]", ErrorLocation.Parse, some "oops"⟩ rfl (by simp)
  exact h

end AiTestUtil
